import Mathlib

/-!
Verification of the `gdoc` CLI core against its specification.

The Python modules `gdoc/state.py`, `gdoc/notify.py`, `gdoc/mdparse.py` and
`gdoc/api/docs.py` are shallowly embedded below.  Python strings are
modelled as `String` (or `List Char` for the markdown engine, where
character-level index arithmetic matters), Python `None`-able values as
`Option`, Python lists as `List`, and Python `set`s as duplicate-free
lists built via membership-tested insertion.  Functions that perform I/O
are embedded as pure functions of their observable inputs (the loaded
state, the fetched metadata and comment listing, the current timestamp),
returning the state they would persist or the request batches they would
submit.  Python code that can raise is embedded with `Except`.
-/

namespace Gdoc

/-- Python exceptions that the embedded code can raise. -/
inductive PyErr where
  | keyError (key : String)
  | attributeError
deriving DecidableEq, Repr

/-! ## `gdoc/state.py`: the `DocState` dataclass -/

/-- The `DocState` dataclass of `gdoc/state.py` (typed view: field values
have the types the dataclass declares). -/
structure DocState where
  last_seen : String := ""
  last_version : Option Int := none
  last_read_version : Option Int := none
  last_comment_check : String := ""
  known_comment_ids : List String := []
  known_resolved_ids : List String := []
deriving DecidableEq, Repr

/-! ## `gdoc/notify.py`: `ChangeInfo`, `has_changes`, `has_conflict` -/

/-- A reply dict as consumed by `pre_flight` (`r.get("action")`,
`r.get("createdTime", "")`). -/
structure Reply where
  action : Option String := none
  createdTime : Option String := none
deriving DecidableEq, Repr

/-- A comment dict as consumed by `pre_flight` (`c.get("id", "")`,
`c.get("resolved", False)`, `c.get("replies", [])`). -/
structure Comment where
  id : Option String := none
  resolved : Bool := false
  replies : List Reply := []
deriving DecidableEq, Repr

/-- The `ChangeInfo` dataclass of `gdoc/notify.py`. -/
structure ChangeInfo where
  is_first_interaction : Bool := false
  doc_title : String := ""
  doc_owner : String := ""
  doc_modified : String := ""
  open_comment_count : Nat := 0
  resolved_comment_count : Nat := 0
  doc_edited : Bool := false
  editor : String := ""
  old_version : Option Int := none
  new_version : Option Int := none
  new_comments : List Comment := []
  new_replies : List Comment := []
  newly_resolved : List Comment := []
  newly_reopened : List Comment := []
  current_version : Option Int := none
  preflight_timestamp : String := ""
  all_comment_ids : List String := []
  all_resolved_ids : List String := []
  last_read_version : Option Int := none
deriving DecidableEq, Repr

/-- `ChangeInfo.has_changes`: `doc_edited or new_comments or new_replies
or newly_resolved or newly_reopened` (truthiness of lists = non-empty). -/
def ChangeInfo.has_changes (ci : ChangeInfo) : Bool :=
  ci.doc_edited || !ci.new_comments.isEmpty || !ci.new_replies.isEmpty ||
    !ci.newly_resolved.isEmpty || !ci.newly_reopened.isEmpty

/-- `ChangeInfo.has_conflict`: returns `False` when `current_version` is
`None`, `True` when `last_read_version` is `None`, else whether the two
versions differ. -/
def ChangeInfo.has_conflict (ci : ChangeInfo) : Bool :=
  match ci.current_version with
  | none => false
  | some cur =>
    match ci.last_read_version with
    | none => true
    | some lrv => cur != lrv

/-! ## `gdoc/state.py`: `update_state_after_command`

Embedded as a pure function: the first argument is the result of
`load_state(doc_id)` and the returned `DocState` is the one passed to
`save_state`; `now` is the timestamp `datetime.now(...)` would produce. -/

/-- `update_state_after_command` from `gdoc/state.py` (the `src` version,
which has no comment-state-patch parameter).  `state0 = load_state(doc_id)`;
`load_state(doc_id) or DocState()` is `state0.getD {}` since a dataclass
instance is always truthy.  The test `change_info.all_resolved_ids is not
None` in the source is vacuously true for the `list[str]`-typed field, so
the embedded branch assigns unconditionally. -/
def update_state_after_command (state0 : Option DocState)
    (change_info : Option ChangeInfo) (command : String) (quiet : Bool)
    (command_version : Option Int) (now : String) : DocState :=
  let state := state0.getD {}
  let state := { state with last_seen := now }
  let is_read := command = "cat" || command = "info"
  let state :=
    if quiet then
      if command = "info" && command_version.isSome then
        { state with last_version := command_version,
                     last_read_version := command_version }
      else state
    else
      match change_info with
      | none => state
      | some ci =>
        let state :=
          if ci.current_version.isSome then
            { state with
              last_version := ci.current_version,
              last_read_version :=
                if is_read then ci.current_version else state.last_read_version }
          else state
        let state :=
          if ci.preflight_timestamp ≠ "" then
            { state with last_comment_check := ci.preflight_timestamp }
          else state
        let state :=
          if ci.all_comment_ids ≠ [] then
            { state with known_comment_ids := ci.all_comment_ids }
          else state
        { state with known_resolved_ids := ci.all_resolved_ids }
  if command_version.isSome && !(command = "cat" || command = "info") then
    { state with last_version := command_version }
  else state

/-- Append an id to a list unless already present (set-style insertion). -/
def addIdOnce (x : String) (xs : List String) : List String :=
  if x ∈ xs then xs else xs ++ [x]

/-- The comment-state patch dict passed by the `cmd_comment` /
`cmd_reply` / `cmd_resolve` / `cmd_reopen` / `cmd_delete_comment`
handlers of `gdoc/cli.py` (up to four keys). -/
structure CommentStatePatch where
  add_comment_id : Option String := none
  add_resolved_id : Option String := none
  remove_resolved_id : Option String := none
  remove_comment_id : Option String := none
deriving DecidableEq, Repr

/-- Modelled from the spec: the `comment_state_patch` handling of
`update_state_after_command` is absent from the `src` snapshot of
`gdoc/state.py` (only its callers in `gdoc/cli.py` and its tests in
`tests/test_state.py` reference it).  Per the spec, the optional patch
(`add_comment_id`, `add_resolved_id`, `remove_resolved_id`,
`remove_comment_id`) is applied idempotently: adding an id already
present is a no-op, and `remove_comment_id` prunes the id from both the
comment-id set and the resolved-id set. -/
def apply_comment_state_patch (patch : Option CommentStatePatch)
    (s : DocState) : DocState :=
  match patch with
  | none => s
  | some p =>
    let s :=
      match p.add_comment_id with
      | some cid => { s with known_comment_ids := addIdOnce cid s.known_comment_ids }
      | none => s
    let s :=
      match p.add_resolved_id with
      | some cid => { s with known_resolved_ids := addIdOnce cid s.known_resolved_ids }
      | none => s
    let s :=
      match p.remove_resolved_id with
      | some cid => { s with known_resolved_ids := s.known_resolved_ids.filter (· ≠ cid) }
      | none => s
    match p.remove_comment_id with
    | some cid =>
      { s with known_comment_ids := s.known_comment_ids.filter (· ≠ cid),
               known_resolved_ids := s.known_resolved_ids.filter (· ≠ cid) }
    | none => s

/-- Modelled from the spec: the full post-command state update with the
optional comment-state patch "applied last, after the bulk
pre-flight-derived overwrite". -/
def update_state_after_command_with_patch (state0 : Option DocState)
    (change_info : Option ChangeInfo) (command : String) (quiet : Bool)
    (command_version : Option Int) (now : String)
    (patch : Option CommentStatePatch) : DocState :=
  apply_comment_state_patch patch
    (update_state_after_command state0 change_info command quiet command_version now)

/-! ## `gdoc/notify.py`: `pre_flight`

Embedded as a pure function of the loaded state, the two pre-flight API
responses (`get_file_version`, `list_comments`), the captured timestamp
and the (lazily fetched) file metadata.  Banner printing is I/O-only and
not modelled.  The quiet short-circuit returns before any of this runs,
so the embedding covers the non-quiet path. -/

/-- The `get_file_version` response dict: `version` (int), `modifiedTime`,
`lastModifyingUser` with `displayName` / `emailAddress`. -/
structure VersionData where
  version : Option Int := none
  modifiedTime : String := ""
  displayName : Option String := none
  emailAddress : Option String := none
deriving DecidableEq, Repr

/-- An owner dict from `get_file_info`. -/
structure Owner where
  emailAddress : Option String := none
  displayName : Option String := none
deriving DecidableEq, Repr

/-- The `get_file_info` metadata used on first interaction. -/
structure FileMeta where
  name : String := ""
  owners : List Owner := []
deriving DecidableEq, Repr

/-- Python truthy coalescing `a or b` for an optional string `a`:
`None` and `""` are falsy. -/
def orElseStr (a : Option String) (b : String) : String :=
  match a with
  | some s => if s = "" then b else s
  | none => b

/-- `[c["id"] for c in comments if c.get("resolved", False)]` from the
first-interaction branch: raises `KeyError("id")` on a resolved comment
without an `id` key. -/
def resolvedIdsFirst : List Comment → Except PyErr (List String)
  | [] => .ok []
  | c :: rest =>
    if c.resolved then
      match c.id with
      | none => .error (.keyError "id")
      | some cid => (resolvedIdsFirst rest).map (cid :: ·)
    else resolvedIdsFirst rest

/-- Ascending insertion into a `<`-sorted list of strings. -/
def insertStr (x : String) : List String → List String
  | [] => [x]
  | y :: ys => if x < y then x :: y :: ys else y :: insertStr x ys

/-- `sorted(...)` over a list of strings (ascending code-point order,
matching Python string ordering). -/
def sortStrings (xs : List String) : List String :=
  xs.foldl (fun acc x => insertStr x acc) []

/-- `not r.get("action")`: the action is absent or falsy (empty). -/
def replyActionFalsy (r : Reply) : Bool :=
  match r.action with
  | none => true
  | some a => a = ""

/-- State of the steady-state comment-classification loop of
`pre_flight` (the four delta lists plus the two merged id accumulators). -/
structure SteadyAcc where
  new_comments : List Comment := []
  new_replies : List Comment := []
  newly_resolved : List Comment := []
  newly_reopened : List Comment := []
  all_ids : List String := []
  all_resolved : List String := []
deriving DecidableEq, Repr

/-- One iteration of the first `for c in comments` loop of the
steady-state branch of `pre_flight` (change classification). -/
def classifyComment (known_ids known_resolved : List String)
    (start_time : String) (acc : SteadyAcc) (c : Comment) : SteadyAcc :=
  let cid := c.id.getD ""
  if cid ∉ known_ids then
    { acc with new_comments := acc.new_comments ++ [c] }
  else
    let acc :=
      if c.replies.any (fun r =>
          replyActionFalsy r && start_time < r.createdTime.getD "") then
        { acc with new_replies := acc.new_replies ++ [c] }
      else acc
    if c.resolved && cid ∉ known_resolved then
      { acc with newly_resolved := acc.newly_resolved ++ [c] }
    else if !c.resolved && cid ∈ known_resolved then
      { acc with newly_reopened := acc.newly_reopened ++ [c] }
    else acc

/-- One iteration of the second `for c in comments` loop of the
steady-state branch of `pre_flight` (merged id-set accumulation): adds
the id, adds it to the resolved set when resolved, discards it from the
resolved set otherwise. -/
def mergeComment (acc : SteadyAcc) (c : Comment) : SteadyAcc :=
  let cid := c.id.getD ""
  if cid ≠ "" then
    let acc := { acc with all_ids := addIdOnce cid acc.all_ids }
    if c.resolved then
      { acc with all_resolved := addIdOnce cid acc.all_resolved }
    else if cid ∈ acc.all_resolved then
      { acc with all_resolved := acc.all_resolved.filter (· ≠ cid) }
    else acc
  else acc

/-- `pre_flight` from `gdoc/notify.py`, non-quiet path, as a pure
function of the loaded state, API responses and captured timestamp.
Returns the `ChangeInfo` the Python function returns, or the exception
it raises. -/
def pre_flight (state : Option DocState) (vd : VersionData)
    (comments : List Comment) (preflight_ts : String) (meta : FileMeta) :
    Except PyErr ChangeInfo :=
  let last_read_version := match state with
    | some s => s.last_read_version
    | none => none
  let current_version := vd.version
  let editor_name := orElseStr vd.displayName (vd.emailAddress.getD "")
  let start_time := match state with
    | some s => s.last_comment_check
    | none => ""
  let info : ChangeInfo :=
    { current_version := current_version,
      preflight_timestamp := preflight_ts,
      last_read_version := last_read_version }
  match state with
  | none =>
    let info := { info with is_first_interaction := true,
                            doc_modified := vd.modifiedTime }
    let owner := meta.owners.head?.getD {}
    let info := { info with
      doc_title := meta.name,
      doc_owner := orElseStr owner.emailAddress (owner.displayName.getD "") }
    let info := { info with
      open_comment_count := (comments.filter (fun (c : Comment) => !c.resolved)).length,
      resolved_comment_count := (comments.filter (fun (c : Comment) => c.resolved)).length }
    match resolvedIdsFirst comments with
    | .error e => .error e
    | .ok resolved_ids =>
      .ok { info with
        all_comment_ids := comments.filterMap (fun (c : Comment) => c.id),
        all_resolved_ids := resolved_ids }
  | some st =>
    let info :=
      if current_version.isSome && st.last_version.isSome &&
          current_version ≠ st.last_version then
        { info with doc_edited := true, editor := editor_name,
                    old_version := st.last_version,
                    new_version := current_version }
      else info
    let acc : SteadyAcc := { }
    let acc := comments.foldl
      (classifyComment st.known_comment_ids st.known_resolved_ids start_time) acc
    let acc := { acc with all_ids := st.known_comment_ids.dedup,
                          all_resolved := st.known_resolved_ids.dedup }
    let acc := comments.foldl mergeComment acc
    .ok { info with
      new_comments := acc.new_comments,
      new_replies := acc.new_replies,
      newly_resolved := acc.newly_resolved,
      newly_reopened := acc.newly_reopened,
      all_comment_ids := sortStrings acc.all_ids,
      all_resolved_ids := sortStrings acc.all_resolved }

/-! ## `gdoc/state.py`: `load_state`

Embedded over a small JSON value type.  The file content is either
missing, malformed (so `json.load` raises `JSONDecodeError`, which is
caught), or a parsed JSON value.  `data.items()` on a non-object raises
`AttributeError`, which is NOT in the caught tuple
`(json.JSONDecodeError, TypeError, KeyError)`. -/

/-- A JSON value. -/
inductive Json where
  | null
  | bool (b : Bool)
  | num (n : Int)
  | str (s : String)
  | arr (elems : List Json)
  | obj (fields : List (String × Json))

/-- Whether a JSON value is an object. -/
def Json.isObj : Json → Bool
  | .obj _ => true
  | _ => false

/-- The content of a state file, as seen by `load_state`. -/
inductive FileContent where
  | missing
  | malformed
  | parsed (j : Json)

/-- The `DocState` instance as actually constructed by `load_state`: the
dataclass does not validate field types, so each field holds whatever
JSON value the file supplied (defaults as in the dataclass). -/
structure DocStateRaw where
  last_seen : Json := .str ""
  last_version : Json := .null
  last_read_version : Json := .null
  last_comment_check : Json := .str ""
  known_comment_ids : Json := .arr []
  known_resolved_ids : Json := .arr []

/-- Look up a key in a JSON object's field list; a duplicate key keeps
the last occurrence, as Python's `json` module does. -/
def lookupLast (k : String) (kvs : List (String × Json)) : Option Json :=
  ((kvs.filter (fun kv => kv.1 = k)).getLast?).map Prod.snd

/-- `DocState(**{k: v for k, v in data.items() if k in
DocState.__dataclass_fields__})`: recognized keys override the dataclass
defaults, unknown keys are dropped. -/
def docStateFromObj (kvs : List (String × Json)) : DocStateRaw :=
  { last_seen := (lookupLast "last_seen" kvs).getD (.str ""),
    last_version := (lookupLast "last_version" kvs).getD .null,
    last_read_version := (lookupLast "last_read_version" kvs).getD .null,
    last_comment_check := (lookupLast "last_comment_check" kvs).getD (.str ""),
    known_comment_ids := (lookupLast "known_comment_ids" kvs).getD (.arr []),
    known_resolved_ids := (lookupLast "known_resolved_ids" kvs).getD (.arr []) }

/-- `load_state` from `gdoc/state.py`: missing file yields `None`;
malformed JSON raises `JSONDecodeError`, caught, yielding `None`; a JSON
object builds a `DocState`; any other JSON value hits
`data.items()` and raises `AttributeError` (uncaught). -/
def load_state : FileContent → Except PyErr (Option DocStateRaw)
  | .missing => .ok none
  | .malformed => .ok none
  | .parsed (.obj kvs) => .ok (some (docStateFromObj kvs))
  | .parsed _ => .error .attributeError

/-! ## `gdoc/mdparse.py`: the markdown engine

Python strings are embedded here as `List Char` so that the index
arithmetic of `re` match spans and plain-text offsets is explicit. -/

/-- A Python string, character by character. -/
abbrev Text := List Char

/-- `text[a:b]` for `a ≤ b`. -/
def slice (cs : Text) (a b : Nat) : Text := (cs.drop a).take (b - a)

/-- `text[i]` when in range. -/
def charAt (cs : Text) (i : Nat) : Option Char := cs[i]?

/-- One style dict of `mdparse.py`.  Every style dict the parser builds
has a single key: `{"bold": True}`, `{"italic": True}`,
`{"weightedFontFamily": {"fontFamily": ...}}`, `{"link": {"url": ...}}`,
`{"namedStyleType": ...}` or `{"bulletPreset": ...}`. -/
inductive StyleMap where
  | bold
  | italic
  | weightedFontFamily (fontFamily : String)
  | link (url : String)
  | namedStyleType (value : String)
  | bulletPreset (value : String)
deriving DecidableEq, Repr

/-- The `StyleRange` dataclass (`end` is a Lean keyword; the Python
field `end` is called `stop` here). -/
structure StyleRange where
  start : Nat
  stop : Nat
  style : StyleMap
  type : String
deriving DecidableEq, Repr

/-!
### The five inline regexes of `mdparse.py`

Each `matchXAt cs i` decides whether the regex matches at position `i`
exactly as Python's `re` engine would when `finditer` attempts position
`i`, returning the match end and the capture.  `.+?` is lazy (smallest
capture first), `.` matches any character except `'\n'`, and the
character classes `[^\x60]` / `[^\]]` / `[^)]` are maximal runs ended by
the required closing delimiter.
-/

/-- Lazy search for the closing `***` of `\*\*\*(.+?)\*\*\*`: `j` is the
candidate start of the closing run; the newly captured character
`cs[j-1]` must exist and not be a newline. -/
def seekCloseBI (cs : Text) : Nat → Nat → Option Nat
  | _, 0 => none
  | j, fuel+1 =>
    match charAt cs (j - 1) with
    | none => none
    | some ch =>
      if ch = '\n' then none
      else if charAt cs j = some '*' && charAt cs (j + 1) = some '*'
          && charAt cs (j + 2) = some '*' then some j
      else seekCloseBI cs (j + 1) fuel

/-- `\*\*\*(.+?)\*\*\*` attempted at position `i`. -/
def matchBIAt (cs : Text) (i : Nat) : Option (Nat × Text) :=
  if charAt cs i = some '*' && charAt cs (i + 1) = some '*'
      && charAt cs (i + 2) = some '*' then
    match seekCloseBI cs (i + 4) (cs.length + 1) with
    | some j => some (j + 3, slice cs (i + 3) j)
    | none => none
  else none

/-- Lazy search for a two-character closing delimiter `dd`. -/
def seekClose2 (cs : Text) (d : Char) : Nat → Nat → Option Nat
  | _, 0 => none
  | j, fuel+1 =>
    match charAt cs (j - 1) with
    | none => none
    | some ch =>
      if ch = '\n' then none
      else if charAt cs j = some d && charAt cs (j + 1) = some d then some j
      else seekClose2 cs d (j + 1) fuel

/-- One branch `dd(.+?)dd` of the bold regex, `d` being `*` or `_`. -/
def matchBoldBranch (cs : Text) (d : Char) (i : Nat) : Option (Nat × Text) :=
  if charAt cs i = some d && charAt cs (i + 1) = some d then
    match seekClose2 cs d (i + 3) (cs.length + 1) with
    | some j => some (j + 2, slice cs (i + 2) j)
    | none => none
  else none

/-- `\*\*(.+?)\*\*|__(.+?)__` attempted at position `i` (first
alternative tried first). -/
def matchBoldAt (cs : Text) (i : Nat) : Option (Nat × Text) :=
  match matchBoldBranch cs '*' i with
  | some r => some r
  | none => matchBoldBranch cs '_' i

/-- Lazy search for the closing delimiter of the italic regex:
`(?<!d)d(?!d)` — the captured character before it must differ from `d`
(the lookbehind) and the character after must too (the lookahead). -/
def seekCloseItalic (cs : Text) (d : Char) : Nat → Nat → Option Nat
  | _, 0 => none
  | j, fuel+1 =>
    match charAt cs (j - 1) with
    | none => none
    | some ch =>
      if ch = '\n' then none
      else if charAt cs j = some d && ch ≠ d
          && charAt cs (j + 1) ≠ some d then some j
      else seekCloseItalic cs d (j + 1) fuel

/-- One branch `(?<!d)d(?!d)(.+?)(?<!d)d(?!d)` of the italic regex. -/
def matchItalicBranch (cs : Text) (d : Char) (i : Nat) : Option (Nat × Text) :=
  if charAt cs i = some d && (i == 0 || charAt cs (i - 1) ≠ some d)
      && charAt cs (i + 1) ≠ some d then
    match seekCloseItalic cs d (i + 2) (cs.length + 1) with
    | some j => some (j + 1, slice cs (i + 1) j)
    | none => none
  else none

/-- The italic regex attempted at position `i` (`*` branch, then `_`). -/
def matchItalicAt (cs : Text) (i : Nat) : Option (Nat × Text) :=
  match matchItalicBranch cs '*' i with
  | some r => some r
  | none => matchItalicBranch cs '_' i

/-- First occurrence of `d` at position `≥ j`. -/
def seekChar (cs : Text) (d : Char) : Nat → Nat → Option Nat
  | _, 0 => none
  | j, fuel+1 =>
    match charAt cs j with
    | none => none
    | some ch => if ch = d then some j else seekChar cs d (j + 1) fuel

/-- The inline-code regex (backtick, one or more non-backticks,
backtick) attempted at position `i`. -/
def matchCodeAt (cs : Text) (i : Nat) : Option (Nat × Text) :=
  if charAt cs i = some '`' then
    match seekChar cs '`' (i + 1) (cs.length + 1) with
    | some j => if i + 1 < j then some (j + 1, slice cs (i + 1) j) else none
    | none => none
  else none

/-- `\[([^\]]+)\]\(([^)]+)\)` attempted at position `i`; returns the
match end, the link text and the url. -/
def matchLinkAt (cs : Text) (i : Nat) : Option (Nat × Text × Text) :=
  if charAt cs i = some '[' then
    match seekChar cs ']' (i + 1) (cs.length + 1) with
    | some j =>
      if i + 1 < j && charAt cs (j + 1) = some '(' then
        match seekChar cs ')' (j + 2) (cs.length + 1) with
        | some k =>
          if j + 2 < k then some (k + 1, slice cs (i + 1) j, slice cs (j + 2) k)
          else none
        | none => none
      else none
    | none => none
  else none

/-- `re.finditer`: scan left to right; after a match resume at its end,
after a failure advance one position.  Every pattern above consumes at
least one character, so `n + 1` fuel covers the whole scan. -/
def finditerGo {α : Type} (matchAt : Nat → Option (Nat × α)) (n : Nat) :
    Nat → Nat → List (Nat × Nat × α)
  | _, 0 => []
  | i, fuel+1 =>
    if n ≤ i then []
    else
      match matchAt i with
      | some (e, g) => (i, e, g) :: finditerGo matchAt n e fuel
      | none => finditerGo matchAt n (i + 1) fuel

/-- All matches of a pattern in scan order, as `(start, end, capture)`. -/
def finditer {α : Type} (matchAt : Nat → Option (Nat × α)) (n : Nat) :
    List (Nat × Nat × α) :=
  finditerGo matchAt n 0 (n + 1)

/-- One entry of the `segments` list of `_parse_inline`:
`(orig_start, orig_end, plain_text, [style_dicts])`. -/
structure Segment where
  ostart : Nat
  oend : Nat
  text : Text
  styles : List StyleMap
deriving DecidableEq, Repr

/-- The bold+italic candidates (two style dicts each). -/
def biSegs (cs : Text) : List Segment :=
  (finditer (matchBIAt cs) cs.length).map
    (fun m => ⟨m.1, m.2.1, m.2.2, [.bold, .italic]⟩)

/-- The bold candidates. -/
def boldSegs (cs : Text) : List Segment :=
  (finditer (matchBoldAt cs) cs.length).map
    (fun m => ⟨m.1, m.2.1, m.2.2, [.bold]⟩)

/-- The italic candidates. -/
def italicSegs (cs : Text) : List Segment :=
  (finditer (matchItalicAt cs) cs.length).map
    (fun m => ⟨m.1, m.2.1, m.2.2, [.italic]⟩)

/-- The inline-code candidates. -/
def codeSegs (cs : Text) : List Segment :=
  (finditer (matchCodeAt cs) cs.length).map
    (fun m => ⟨m.1, m.2.1, m.2.2, [.weightedFontFamily "Courier New"]⟩)

/-- The link candidates. -/
def linkSegs (cs : Text) : List Segment :=
  (finditer (matchLinkAt cs) cs.length).map
    (fun m => ⟨m.1, m.2.1, m.2.2.1, [.link (String.mk m.2.2.2)]⟩)

/-- The overlap test of `_parse_inline`:
`any(s[0] <= m.start() < s[1] or s[0] < m.end() <= s[1] for s in segments)`. -/
def overlapsAny (segs : List Segment) (s e : Nat) : Bool :=
  segs.any (fun sg => (sg.ostart ≤ s && s < sg.oend) || (sg.ostart < e && e ≤ sg.oend))

/-- Append a candidate unless the overlap test rejects it. -/
def addChecked (acc : List Segment) (cand : Segment) : List Segment :=
  if overlapsAny acc cand.ostart cand.oend then acc else acc ++ [cand]

/-- The five candidate passes of `_parse_inline`, in precedence order.
The bold+italic pass appends without an overlap check (it runs first);
every later candidate is checked against all segments accumulated so
far, including earlier candidates of its own pass. -/
def collectSegments (cs : Text) : List Segment :=
  let segs := biSegs cs
  let segs := (boldSegs cs).foldl addChecked segs
  let segs := (italicSegs cs).foldl addChecked segs
  let segs := (codeSegs cs).foldl addChecked segs
  (linkSegs cs).foldl addChecked segs

/-- The overlap condition of the `_parse_inline` skip test, seen from
one already-claimed segment `s`: a candidate with span
`[cstart, cend)` is rejected when its start lies in `[s.ostart, s.oend)`
or its end lies in `(s.ostart, s.oend]`. -/
def claimedBy (s : Segment) (cstart cend : Nat) : Prop :=
  (s.ostart ≤ cstart ∧ cstart < s.oend) ∨ (s.ostart < cend ∧ cend ≤ s.oend)

instance (s : Segment) (cstart cend : Nat) : Decidable (claimedBy s cstart cend) := by
  unfold claimedBy
  infer_instance

/-- Stable insertion keyed on `ostart` (equal keys keep encounter
order), implementing `segments.sort(key=lambda s: s[0])`. -/
def insertByStart (x : Segment) : List Segment → List Segment
  | [] => [x]
  | y :: ys => if x.ostart < y.ostart then x :: y :: ys else y :: insertByStart x ys

/-- `segments.sort(key=lambda s: s[0])` (stable). -/
def sortByStart (l : List Segment) : List Segment :=
  l.foldl (fun acc x => insertByStart x acc) []

/-- The plain-text build loop of `_parse_inline`: emits the literal text
before each segment, then the segment's (delimiter-stripped) text,
recording each of the segment's style dicts over the emitted span; after
the last segment the remaining literal tail is emitted. -/
def buildPlain (cs : Text) : List Segment → Nat → Nat → (Text × List StyleRange)
  | [], _, prev_end => (cs.drop prev_end, [])
  | sg :: rest, plain_offset, prev_end =>
    let lit := if prev_end < sg.ostart then slice cs prev_end sg.ostart else []
    let segStart := plain_offset + lit.length
    let segStop := segStart + sg.text.length
    let ranges := sg.styles.map (fun st => StyleRange.mk segStart segStop st "text_style")
    let rest2 := buildPlain cs rest segStop sg.oend
    (lit ++ sg.text ++ rest2.1, ranges ++ rest2.2)

/-- `_parse_inline` from `gdoc/mdparse.py`. -/
def parse_inline (cs : Text) : Text × List StyleRange :=
  buildPlain cs (sortByStart (collectSegments cs)) 0 0

/-! ### Line classification and `parse_markdown` -/

/-- Python `\s` on the characters that can appear in a split line. -/
def isPySpace (c : Char) : Bool :=
  c = ' ' || c = '\t' || c = '\n' || c = '\r' || c = '\x0b' || c = '\x0c'

/-- Python `str.strip()`. -/
def pyStrip (cs : Text) : Text :=
  ((cs.dropWhile isPySpace).reverse.dropWhile isPySpace).reverse

/-- `^(#{1,6})\s+(.+)$`: heading level and content, if the line is a
heading. -/
def headingMatch (line : Text) : Option (Nat × Text) :=
  let h := (line.takeWhile (· = '#')).length
  if 1 ≤ h && h ≤ 6 then
    let rest := line.drop h
    let ws := (rest.takeWhile isPySpace).length
    let content := rest.drop ws
    if 1 ≤ ws && !content.isEmpty then some (h, content) else none
  else none

/-- `^[-*]\s+(.+)$`: bullet-item content, if the line is a bullet. -/
def bulletMatch (line : Text) : Option Text :=
  match line with
  | c :: rest =>
    if c = '-' || c = '*' then
      let ws := (rest.takeWhile isPySpace).length
      let content := rest.drop ws
      if 1 ≤ ws && !content.isEmpty then some content else none
    else none
  | [] => none

/-- `^\d+\.\s+(.+)$`: numbered-item content, if the line is numbered. -/
def numberedMatch (line : Text) : Option Text :=
  let d := (line.takeWhile (fun c => c.isDigit)).length
  if 1 ≤ d then
    match line.drop d with
    | '.' :: rest =>
      let ws := (rest.takeWhile isPySpace).length
      let content := rest.drop ws
      if 1 ≤ ws && !content.isEmpty then some content else none
    | _ => none
  else none

/-- Modelled from the spec: the table support of `parse_markdown` is
absent from the `src` snapshot of `gdoc/mdparse.py` (only its tests in
`tests/test_mdparse.py` and its caller `replace_formatted` in
`gdoc/api/docs.py` reference `TableData` / `ParsedMarkdown.tables`).
A line matches the pipe-row grammar `| c1 | c2 | ... |` when, after
stripping, it starts and ends with a pipe. -/
def isPipeRow (line : Text) : Bool :=
  let t := pyStrip line
  2 ≤ t.length && t.head? = some '|' && t.getLast? = some '|'

/-- Modelled from the spec: the cells of a pipe row — the text between
the outer pipes, split on `|`, each cell stripped. -/
def splitCells (line : Text) : List Text :=
  let t := pyStrip line
  (((t.drop 1).dropLast).splitOn '|').map pyStrip

/-- Modelled from the spec: a separator line `|---|---|...` — a pipe row
whose cells are all non-empty runs of dashes. -/
def isSeparatorRow (line : Text) : Bool :=
  isPipeRow line && (splitCells line).all (fun c => !c.isEmpty && c.all (· = '-'))

/-- Modelled from the spec: shorter data rows are right-padded with
empty strings, longer ones truncated, to the header's column count. -/
def padTruncate (row : List Text) (n : Nat) : List Text :=
  row.take n ++ List.replicate (n - row.length) []

/-- The `TableData` dataclass (present in the repository's tests and in
`replace_formatted`, absent from the `src` snapshot of `mdparse.py`). -/
structure TableData where
  rows : List (List Text)
  num_rows : Nat
  num_cols : Nat
  plain_text_offset : Nat
deriving DecidableEq, Repr

/-- The `ParsedMarkdown` dataclass, with the `tables` field that its
tests and its caller `replace_formatted` require. -/
structure ParsedMarkdown where
  plain_text : Text
  styles : List StyleRange := []
  tables : List TableData := []
deriving DecidableEq, Repr

/-- A table block opens at the current line when it is a pipe row and
the next line is a separator row (modelled from the spec). -/
def isTableStart (line : Text) (rest : List Text) : Bool :=
  match rest with
  | next :: _ => isPipeRow line && isSeparatorRow next
  | [] => false

/-- Shift inline style ranges by the paragraph start offset. -/
def shiftStyles (ss : List StyleRange) (off : Nat) : List StyleRange :=
  ss.map (fun s => { s with start := s.start + off, stop := s.stop + off })

/-- The line loop of `parse_markdown` over the pre-split lines, threading
the running `plain_text` write offset.  Line priority: table block
(modelled from the spec), heading, bullet, numbered, plain paragraph.
The `NORMAL_TEXT` paragraph style emitted for non-heading paragraphs and
the table placeholder are modelled from the spec (the `src` snapshot
emits paragraph styles only for headings, contradicting
`tests/test_mdparse.py`).  The first argument bounds the number of loop
iterations; every iteration consumes at least one line, so
`parse_markdown` passes the line count and the bound is never hit. -/
def parseLines : Nat → List Text → Nat → (Text × List StyleRange × List TableData)
  | 0, _, _ => ([], [], [])
  | _ + 1, [], _ => ([], [], [])
  | fuel + 1, line :: rest, offset =>
    if isTableStart line rest then
      let dataLines := rest.tail.takeWhile isPipeRow
      let remaining := rest.tail.dropWhile isPipeRow
      let header := splitCells line
      let nc := header.length
      let rows := header :: dataLines.map (fun l => padTruncate (splitCells l) nc)
      let tbl : TableData := ⟨rows, rows.length, nc, offset⟩
      let r := parseLines fuel remaining (offset + 1)
      ('\n' :: r.1,
       StyleRange.mk offset (offset + 1) (.namedStyleType "NORMAL_TEXT") "paragraph_style" :: r.2.1,
       tbl :: r.2.2)
    else
      match headingMatch line with
      | some lc =>
        let pi := parse_inline lc.2
        let itext := pi.1
        let istyles := pi.2
        let o2 := offset + itext.length + 1
        let para := StyleRange.mk offset o2
          (.namedStyleType ("HEADING_" ++ toString lc.1)) "paragraph_style"
        let r := parseLines fuel rest o2
        (itext ++ '\n' :: r.1, shiftStyles istyles offset ++ para :: r.2.1, r.2.2)
      | none =>
      match bulletMatch line with
      | some content =>
        let pi := parse_inline content
        let itext := pi.1
        let istyles := pi.2
        let o2 := offset + itext.length + 1
        let para := StyleRange.mk offset o2 (.namedStyleType "NORMAL_TEXT") "paragraph_style"
        let bull := StyleRange.mk offset o2
          (.bulletPreset "BULLET_DISC_CIRCLE_SQUARE") "bullets"
        let r := parseLines fuel rest o2
        (itext ++ '\n' :: r.1, shiftStyles istyles offset ++ para :: bull :: r.2.1, r.2.2)
      | none =>
      match numberedMatch line with
      | some content =>
        let pi := parse_inline content
        let itext := pi.1
        let istyles := pi.2
        let o2 := offset + itext.length + 1
        let para := StyleRange.mk offset o2 (.namedStyleType "NORMAL_TEXT") "paragraph_style"
        let bull := StyleRange.mk offset o2
          (.bulletPreset "NUMBERED_DECIMAL_ALPHA_ROMAN") "bullets"
        let r := parseLines fuel rest o2
        (itext ++ '\n' :: r.1, shiftStyles istyles offset ++ para :: bull :: r.2.1, r.2.2)
      | none =>
        let pi := parse_inline line
        let itext := pi.1
        let istyles := pi.2
        let o2 := offset + itext.length + 1
        let para := StyleRange.mk offset o2 (.namedStyleType "NORMAL_TEXT") "paragraph_style"
        let r := parseLines fuel rest o2
        (itext ++ '\n' :: r.1, shiftStyles istyles offset ++ para :: r.2.1, r.2.2)

/-- `text.split("\n")`. -/
def splitLinesPy (cs : Text) : List Text := cs.splitOn '\n'

/-- `parse_markdown` from `gdoc/mdparse.py` (empty input short-circuits;
table blocks and `NORMAL_TEXT` emission modelled from the spec, see
`parseLines`). -/
def parse_markdown (text : Text) : ParsedMarkdown :=
  if text.isEmpty then { plain_text := [] }
  else
    let r := parseLines (splitLinesPy text).length (splitLinesPy text) 0
    ⟨r.1, r.2.1, r.2.2⟩

/-! ## `gdoc/api/docs.py`: request building and `replace_formatted`

Each batchUpdate request dict is modelled by a constructor; the optional
`tabId` on every location/range is the `tab_id` parameter (the tab-id
threading of `to_docs_requests` is modelled from the spec, since the
`src` snapshot's signature lacks it while its tests and caller pass it). -/

/-- A Docs API batchUpdate request dict. -/
inductive Request where
  | insertText (index : Nat) (text : Text) (tabId : Option String)
  | updateTextStyle (startIndex endIndex : Nat) (textStyle : StyleMap)
      (fields : String) (tabId : Option String)
  | updateParagraphStyle (startIndex endIndex : Nat) (namedStyleTypeValue : String)
      (tabId : Option String)
  | createParagraphBullets (startIndex endIndex : Nat) (bulletPresetValue : String)
      (tabId : Option String)
  | deleteContentRange (startIndex endIndex : Nat) (tabId : Option String)
  | insertTable (index rows columns : Nat) (tabId : Option String)
deriving DecidableEq, Repr

/-- `_text_style_fields`: the fields mask from the style-dict keys. -/
def text_style_fields : StyleMap → String
  | .bold => "bold"
  | .italic => "italic"
  | .weightedFontFamily _ => "weightedFontFamily"
  | .link _ => "link"
  | _ => ""

/-- The `namedStyleType` value of a paragraph-style dict. -/
def paraName : StyleMap → String
  | .namedStyleType v => v
  | _ => ""

/-- The `bulletPreset` value of a bullets-style dict. -/
def presetName : StyleMap → String
  | .bulletPreset v => v
  | _ => ""

/-- `to_docs_requests` from `gdoc/mdparse.py`: one insert-text request,
then one request per text-style range, then per paragraph-style range,
then per bullets range, all offset by `insert_index`. -/
def to_docs_requests (parsed : ParsedMarkdown) (insert_index : Nat)
    (tab_id : Option String) : List Request :=
  if parsed.plain_text.isEmpty then []
  else
    Request.insertText insert_index parsed.plain_text tab_id
      :: ((parsed.styles.filter (fun sr => sr.type = "text_style")).map
            (fun sr => Request.updateTextStyle (sr.start + insert_index)
              (sr.stop + insert_index) sr.style (text_style_fields sr.style) tab_id)
        ++ (parsed.styles.filter (fun sr => sr.type = "paragraph_style")).map
            (fun sr => Request.updateParagraphStyle (sr.start + insert_index)
              (sr.stop + insert_index) (paraName sr.style) tab_id)
        ++ (parsed.styles.filter (fun sr => sr.type = "bullets")).map
            (fun sr => Request.createParagraphBullets (sr.start + insert_index)
              (sr.stop + insert_index) (presetName sr.style) tab_id))

/-- A `{"startIndex": ..., "endIndex": ...}` match span. -/
structure MatchSpan where
  startIndex : Nat
  endIndex : Nat
deriving DecidableEq, Repr

/-- Stable descending insertion on `startIndex` (equal keys keep
encounter order, as Python's stable `sorted(..., reverse=True)`). -/
def insertMatchDesc (x : MatchSpan) : List MatchSpan → List MatchSpan
  | [] => [x]
  | y :: ys =>
    if y.startIndex < x.startIndex then x :: y :: ys else y :: insertMatchDesc x ys

/-- `sorted(matches, key=lambda m: m["startIndex"], reverse=True)`. -/
def sortMatchesDesc (ms : List MatchSpan) : List MatchSpan :=
  ms.foldl (fun acc x => insertMatchDesc x acc) []

/-- One `batchUpdate` call body. -/
structure BatchUpdate where
  requests : List Request
  requiredRevisionId : Option String
deriving DecidableEq, Repr

/-- The observable effect of `replace_formatted`: the single main batch
(with its `writeControl.requiredRevisionId`), the cleanup positions
computed for the post-batch cleanup pass, the table-insertion jobs of
the final table pass (in execution order), and the returned count.
The cleanup batch and each table job run as separate API calls after the
main batch succeeds. -/
structure ReplacePlan where
  mainBatch : Option BatchUpdate
  cleanupPositions : List Int
  tableJobs : List (Int × TableData)
  result : Nat
deriving DecidableEq, Repr

/-- `replace_formatted` from `gdoc/api/docs.py`: parse the markdown once,
sort matches descending by `startIndex`, emit per match one delete-range
request followed by the insert/style requests anchored at the match
start, submit all of it as one batch guarded by `revision_id`, then
compute cleanup positions (using the cumulative shift
`(n - 1 - j) * delta`) and the table jobs (tables in reverse order, one
insertion per match), and return the number of matches. -/
def replace_formatted (ms : List MatchSpan) (new_markdown : Text)
    (revision_id : String) (tab_id : Option String) : ReplacePlan :=
  let parsed := parse_markdown new_markdown
  let sorted_matches := sortMatchesDesc ms
  let all_requests := sorted_matches.foldl
    (fun acc m => acc ++ (Request.deleteContentRange m.startIndex m.endIndex tab_id
        :: to_docs_requests parsed m.startIndex tab_id)) []
  if all_requests.isEmpty then ⟨none, [], [], 0⟩
  else
    let n := sorted_matches.length
    let match_len : Int := match sorted_matches.head? with
      | some m => (m.endIndex : Int) - (m.startIndex : Int)
      | none => 0
    let delta : Int := (parsed.plain_text.length : Int) - match_len
    let cleanup := sorted_matches.enum.map (fun jm =>
      (jm.2.startIndex : Int) + (parsed.plain_text.length : Int)
        + ((n - 1 - jm.1 : Nat) : Int) * delta)
    let jobs := parsed.tables.reverse.flatMap (fun t =>
      sorted_matches.enum.map (fun jm =>
        ((jm.2.startIndex : Int) + (t.plain_text_offset : Int)
          + ((n - 1 - jm.1 : Nat) : Int) * delta, t)))
    ⟨some ⟨all_requests, some revision_id⟩, cleanup, jobs, sorted_matches.length⟩

/-- The start index of a delete-range request, if the request is one. -/
def deleteStart? : Request → Option Nat
  | .deleteContentRange s _ _ => some s
  | _ => none

/-- Whether a request is an insert-table-structure request. -/
def isInsertTable : Request → Bool
  | .insertTable _ _ _ _ => true
  | _ => false

/-- Spec-side classifier for C4 (follows the spec's words, to be
compared with `parse_markdown`): walking the split lines, each consumed
paragraph is a heading of some level (`some level`) or a `NORMAL_TEXT`
paragraph (`none`) — plain paragraphs, bullet items, numbered items and
each table block's placeholder line. -/
def expectedParaKinds : List Text → List (Option Nat)
  | [] => []
  | line :: rest =>
    if isTableStart line rest then
      none :: expectedParaKinds (rest.tail.dropWhile isPipeRow)
    else
      match headingMatch line with
      | some lc => some lc.1 :: expectedParaKinds rest
      | none => none :: expectedParaKinds rest
termination_by lines => lines.length
decreasing_by
  all_goals first
  | exact Nat.lt_succ_self _
  | · have h1 : (rest.tail.dropWhile isPipeRow).length ≤ rest.tail.length :=
        (List.dropWhile_sublist isPipeRow).length_le
      have h2 : rest.tail.length ≤ rest.length := by
        cases rest <;> simp
      simp only [List.length_cons]
      omega

/-- The paragraph style the spec assigns to each paragraph kind. -/
def kindStyle : Option Nat → StyleMap
  | some lvl => .namedStyleType ("HEADING_" ++ toString lvl)
  | none => .namedStyleType "NORMAL_TEXT"

/-! ## Helper lemmas -/

theorem addIdOnce_of_mem {x : String} {xs : List String} (h : x ∈ xs) :
    addIdOnce x xs = xs := by
  simp [addIdOnce, h]

theorem mem_addIdOnce_self (x : String) (xs : List String) :
    x ∈ addIdOnce x xs := by
  unfold addIdOnce
  split
  · assumption
  · simp

theorem mem_addIdOnce_of_mem {y : String} (x : String) {xs : List String}
    (h : y ∈ xs) : y ∈ addIdOnce x xs := by
  unfold addIdOnce
  split
  · exact h
  · simp [h]

theorem count_addIdOnce_self {x : String} {xs : List String}
    (h : xs.count x = 1) : (addIdOnce x xs).count x = 1 := by
  have hx : x ∈ xs := List.count_pos_iff.mp (by omega)
  rw [addIdOnce_of_mem hx]
  exact h

theorem mem_insertStr {y x : String} {xs : List String} :
    y ∈ insertStr x xs ↔ y = x ∨ y ∈ xs := by
  induction xs with
  | nil => simp [insertStr]
  | cons z zs ih =>
    unfold insertStr
    split
    · simp
    · simp only [List.mem_cons, ih]
      tauto

theorem mem_sortStrings {y : String} {xs : List String} :
    y ∈ sortStrings xs ↔ y ∈ xs := by
  suffices h : ∀ acc, y ∈ xs.foldl (fun acc x => insertStr x acc) acc ↔ y ∈ xs ∨ y ∈ acc by
    simpa [sortStrings] using h []
  induction xs with
  | nil => simp
  | cons z zs ih =>
    intro acc
    simp only [List.foldl_cons, ih, mem_insertStr, List.mem_cons]
    tauto

theorem mem_addIdOnce_iff {y x : String} {xs : List String} :
    y ∈ addIdOnce x xs ↔ y = x ∨ y ∈ xs := by
  unfold addIdOnce
  split
  · rename_i hmem
    constructor
    · exact fun hy => Or.inr hy
    · rintro (rfl | hy)
      · exact hmem
      · exact hy
  · simp [or_comm]

theorem update_known_comment_ids (state0 : Option DocState)
    (ci : Option ChangeInfo) (command : String) (quiet : Bool)
    (cv : Option Int) (now : String) :
    (update_state_after_command state0 ci command quiet cv now).known_comment_ids
      = (match quiet, ci with
         | false, some c =>
            if c.all_comment_ids ≠ [] then c.all_comment_ids
            else (state0.getD {}).known_comment_ids
         | _, _ => (state0.getD {}).known_comment_ids) := by
  unfold update_state_after_command
  cases quiet <;> rcases ci with _ | c <;>
    simp [apply_ite DocState.known_comment_ids]

theorem update_known_resolved_ids (state0 : Option DocState)
    (ci : Option ChangeInfo) (command : String) (quiet : Bool)
    (cv : Option Int) (now : String) :
    (update_state_after_command state0 ci command quiet cv now).known_resolved_ids
      = (match quiet, ci with
         | false, some c => c.all_resolved_ids
         | _, _ => (state0.getD {}).known_resolved_ids) := by
  unfold update_state_after_command
  cases quiet <;> rcases ci with _ | c <;>
    simp [apply_ite DocState.known_resolved_ids]

theorem mergeComment_subset {acc : SteadyAcc} (c : Comment)
    (h : acc.all_resolved ⊆ acc.all_ids) :
    (mergeComment acc c).all_resolved ⊆ (mergeComment acc c).all_ids := by
  simp only [mergeComment]
  split_ifs with h0 h1 h2
  · intro x hx
    rcases mem_addIdOnce_iff.mp hx with rfl | hx'
    · exact mem_addIdOnce_self _ _
    · exact mem_addIdOnce_of_mem _ (h hx')
  · intro x hx
    exact mem_addIdOnce_of_mem _ (h (List.mem_of_mem_filter hx))
  · intro x hx
    exact mem_addIdOnce_of_mem _ (h hx)
  · exact h

theorem mergeFold_subset (comments : List Comment) :
    ∀ (acc : SteadyAcc), acc.all_resolved ⊆ acc.all_ids →
      (comments.foldl mergeComment acc).all_resolved
        ⊆ (comments.foldl mergeComment acc).all_ids := by
  induction comments with
  | nil => intro acc h; simpa using h
  | cons c cs ih =>
    intro acc h
    simpa using ih (mergeComment acc c) (mergeComment_subset c h)

theorem resolvedIdsFirst_subset {comments : List Comment} {rids : List String}
    (h : resolvedIdsFirst comments = .ok rids) :
    rids ⊆ comments.filterMap (fun (c : Comment) => c.id) := by
  induction comments generalizing rids with
  | nil =>
    simp only [resolvedIdsFirst] at h
    cases h
    simp
  | cons c cs ih =>
    simp only [resolvedIdsFirst] at h
    split at h
    · cases hid : c.id with
      | none => rw [hid] at h; cases h
      | some cid =>
        rw [hid] at h
        cases hr : resolvedIdsFirst cs with
        | error e => rw [hr] at h; cases h
        | ok rs =>
          rw [hr] at h
          simp only [Except.map] at h
          cases h
          intro x hx
          rcases List.mem_cons.mp hx with h1 | h1
          · subst h1
            simp [List.filterMap_cons, hid]
          · have := ih hr h1
            simp only [List.filterMap_cons]
            cases c.id <;> simp [this]
    · intro x hx
      have := ih h hx
      simp only [List.filterMap_cons]
      cases c.id <;> simp [this]

theorem foldl_append_eq_flatMap {α β : Type} (f : α → List β) (l : List α) :
    l.foldl (fun acc x => acc ++ f x) [] = l.flatMap f := by
  suffices h : ∀ acc, l.foldl (fun acc x => acc ++ f x) acc = acc ++ l.flatMap f by
    simpa using h []
  induction l with
  | nil => intro acc; simp
  | cons x xs ih => intro acc; simp [ih, List.append_assoc]

theorem flatMap_const_nil {α β : Type} (l : List α) :
    l.flatMap (fun _ => ([] : List β)) = [] := by
  induction l <;> simp_all

theorem mem_insertMatchDesc {y x : MatchSpan} {l : List MatchSpan} :
    y ∈ insertMatchDesc x l ↔ y = x ∨ y ∈ l := by
  induction l with
  | nil => simp [insertMatchDesc]
  | cons z zs ih =>
    unfold insertMatchDesc
    split
    · simp
    · simp only [List.mem_cons, ih]
      tauto

theorem pairwise_insertMatchDesc {x : MatchSpan} {l : List MatchSpan}
    (h : l.Pairwise (fun a b => b.startIndex ≤ a.startIndex)) :
    (insertMatchDesc x l).Pairwise (fun a b => b.startIndex ≤ a.startIndex) := by
  induction l with
  | nil => simp [insertMatchDesc]
  | cons z zs ih =>
    rcases List.pairwise_cons.mp h with ⟨hz, hzs⟩
    unfold insertMatchDesc
    split
    · rename_i hlt
      refine List.pairwise_cons.mpr ⟨?_, h⟩
      intro b hb
      rcases List.mem_cons.mp hb with rfl | hb'
      · omega
      · have := hz b hb'
        omega
    · rename_i hnlt
      refine List.pairwise_cons.mpr ⟨?_, ih hzs⟩
      intro b hb
      rcases mem_insertMatchDesc.mp hb with rfl | hb'
      · omega
      · exact hz b hb'

theorem perm_insertMatchDesc (x : MatchSpan) (l : List MatchSpan) :
    List.Perm (insertMatchDesc x l) (x :: l) := by
  induction l with
  | nil => simp [insertMatchDesc]
  | cons z zs ih =>
    unfold insertMatchDesc
    split
    · exact List.Perm.refl _
    · exact (ih.cons z).trans (List.Perm.swap x z zs)

theorem sortMatchesDesc_perm (ms : List MatchSpan) :
    List.Perm (sortMatchesDesc ms) ms := by
  suffices h : ∀ acc,
      List.Perm (ms.foldl (fun acc x => insertMatchDesc x acc) acc) (ms ++ acc) by
    simpa using h []
  induction ms with
  | nil => intro acc; simp
  | cons x xs ih =>
    intro acc
    simp only [List.foldl_cons]
    exact ((ih _).trans (List.Perm.append_left xs (perm_insertMatchDesc x acc))).trans
      List.perm_middle

theorem sortMatchesDesc_pairwise (ms : List MatchSpan) :
    (sortMatchesDesc ms).Pairwise (fun a b => b.startIndex ≤ a.startIndex) := by
  suffices h : ∀ acc, acc.Pairwise (fun a b => b.startIndex ≤ a.startIndex) →
      (ms.foldl (fun acc x => insertMatchDesc x acc) acc).Pairwise
        (fun a b => b.startIndex ≤ a.startIndex) by
    exact h [] (by simp)
  induction ms with
  | nil => intro acc h; simpa using h
  | cons x xs ih =>
    intro acc h
    simp only [List.foldl_cons]
    exact ih _ (pairwise_insertMatchDesc h)

theorem to_docs_requests_no_delete (p : ParsedMarkdown) (i : Nat) (t : Option String) :
    ∀ r ∈ to_docs_requests p i t, deleteStart? r = none := by
  intro r hr
  unfold to_docs_requests at hr
  split at hr
  · cases hr
  · rcases List.mem_cons.mp hr with rfl | hr'
    · rfl
    · rcases List.mem_append.mp hr' with h1 | h1
      · rcases List.mem_append.mp h1 with h2 | h2
        · obtain ⟨sr, _, rfl⟩ := List.mem_map.mp h2
          rfl
        · obtain ⟨sr, _, rfl⟩ := List.mem_map.mp h2
          rfl
      · obtain ⟨sr, _, rfl⟩ := List.mem_map.mp h1
        rfl

theorem to_docs_requests_no_insertTable (p : ParsedMarkdown) (i : Nat) (t : Option String) :
    ∀ r ∈ to_docs_requests p i t, isInsertTable r = false := by
  intro r hr
  unfold to_docs_requests at hr
  split at hr
  · cases hr
  · rcases List.mem_cons.mp hr with rfl | hr'
    · rfl
    · rcases List.mem_append.mp hr' with h1 | h1
      · rcases List.mem_append.mp h1 with h2 | h2
        · obtain ⟨sr, _, rfl⟩ := List.mem_map.mp h2
          rfl
        · obtain ⟨sr, _, rfl⟩ := List.mem_map.mp h2
          rfl
      · obtain ⟨sr, _, rfl⟩ := List.mem_map.mp h1
        rfl

theorem filterMap_delete_blocks (p : ParsedMarkdown) (t : Option String)
    (l : List MatchSpan) :
    (l.flatMap (fun m => Request.deleteContentRange m.startIndex m.endIndex t
        :: to_docs_requests p m.startIndex t)).filterMap deleteStart?
      = l.map MatchSpan.startIndex := by
  induction l with
  | nil => simp
  | cons m msl ih =>
    simp only [List.flatMap_cons, List.filterMap_append, List.filterMap_cons]
    rw [List.filterMap_eq_nil_iff.mpr (to_docs_requests_no_delete p m.startIndex t)]
    simp [deleteStart?, ih]

theorem buildPlain_type (cs : Text) (segs : List Segment) :
    ∀ po pe, ∀ sr ∈ (buildPlain cs segs po pe).2, sr.type = "text_style" := by
  induction segs with
  | nil => intro po pe sr h; simp [buildPlain] at h
  | cons sg rest ih =>
    intro po pe sr h
    simp only [buildPlain] at h
    rcases List.mem_append.mp h with h1 | h1
    · obtain ⟨st, _, rfl⟩ := List.mem_map.mp h1
      rfl
    · exact ih _ _ sr h1

theorem parse_inline_type (cs : Text) :
    ∀ sr ∈ (parse_inline cs).2, sr.type = "text_style" :=
  fun sr h => buildPlain_type cs _ 0 0 sr h

theorem filter_para_shiftStyles (cs : Text) (off : Nat) :
    (shiftStyles (parse_inline cs).2 off).filter
      (fun sr => sr.type = "paragraph_style") = [] := by
  refine List.filter_eq_nil_iff.mpr ?_
  intro sr hsr
  obtain ⟨sr0, hsr0, rfl⟩ := List.mem_map.mp hsr
  have := parse_inline_type cs sr0 hsr0
  simp [this]

theorem parseLines_paraStyles :
    ∀ (fuel : Nat) (lines : List Text), lines.length ≤ fuel → ∀ (offset : Nat),
      ((parseLines fuel lines offset).2.1.filter
          (fun sr => sr.type = "paragraph_style")).map StyleRange.style
        = (expectedParaKinds lines).map kindStyle := by
  intro fuel
  induction fuel with
  | zero =>
    intro lines hlen offset
    have hnil : lines = [] := List.eq_nil_of_length_eq_zero (Nat.le_zero.mp hlen)
    subst hnil
    simp [parseLines, expectedParaKinds]
  | succ n ihn =>
    intro lines hlen offset
    match lines with
    | [] => simp [parseLines, expectedParaKinds]
    | line :: rest =>
      rw [parseLines, expectedParaKinds]
      by_cases htab : isTableStart line rest
      · have hlen' : (rest.tail.dropWhile isPipeRow).length ≤ n := by
          have h1 : (rest.tail.dropWhile isPipeRow).length ≤ rest.tail.length :=
            (List.dropWhile_sublist isPipeRow).length_le
          have h2 : rest.tail.length ≤ rest.length := by
            cases rest <;> simp
          simp only [List.length_cons] at hlen
          omega
        simp only [htab, if_true]
        simp [List.filter_cons, kindStyle, ihn _ hlen' (offset + 1)]
      · have hlen' : rest.length ≤ n := by
          simp only [List.length_cons] at hlen
          omega
        simp only [htab, if_false]
        rcases hh : headingMatch line with _ | lc
        · rcases hb : bulletMatch line with _ | content
          · rcases hnm : numberedMatch line with _ | content
            · simp [List.filter_append, filter_para_shiftStyles, List.filter_cons,
                kindStyle, ihn _ hlen']
            · simp [List.filter_append, filter_para_shiftStyles, List.filter_cons,
                kindStyle, ihn _ hlen']
          · simp [List.filter_append, filter_para_shiftStyles, List.filter_cons,
              kindStyle, ihn _ hlen']
        · simp [List.filter_append, filter_para_shiftStyles, List.filter_cons,
            kindStyle, ihn _ hlen']

theorem padTruncate_length (row : List Text) (n : Nat) :
    (padTruncate row n).length = n := by
  simp only [padTruncate, List.length_append, List.length_take, List.length_replicate]
  omega

theorem newline_at_append {itext p2 : Text} {j : Nat} (hget : p2[j]? = some '\n') :
    (itext ++ '\n' :: p2)[itext.length + 1 + j]? = some '\n' := by
  rw [List.getElem?_append_right (by omega)]
  have h1 : itext.length + 1 + j - itext.length = j + 1 := by omega
  rw [h1]
  simpa using hget

/-- The shape and placeholder invariants of every table captured by the
line loop: rectangular rows (each of length `num_cols`), `num_rows` is
the row count (`1 +` data-row count), and the placeholder position holds
a newline. -/
theorem parseLines_tables :
    ∀ (n : Nat) (lines : List Text), lines.length ≤ n → ∀ (offset : Nat),
      ∀ t ∈ (parseLines n lines offset).2.2,
        (∀ row ∈ t.rows, row.length = t.num_cols)
        ∧ t.num_rows = t.rows.length
        ∧ (∃ header dataRows, t.rows = header :: dataRows
            ∧ header.length = t.num_cols ∧ t.num_rows = 1 + dataRows.length)
        ∧ offset ≤ t.plain_text_offset
        ∧ (parseLines n lines offset).1[t.plain_text_offset - offset]? = some '\n' := by
  intro n
  induction n with
  | zero =>
    intro lines hlen offset t ht
    simp [parseLines] at ht
  | succ n ihn =>
    intro lines hlen offset t ht
    match lines with
    | [] => simp [parseLines] at ht
    | line :: rest =>
      rw [parseLines] at ht
      rw [parseLines]
      by_cases htab : isTableStart line rest
      · simp only [htab, if_true] at ht ⊢
        rcases List.mem_cons.mp ht with rfl | ht'
        · refine ⟨?_, rfl, ⟨splitCells line, _, rfl, rfl, by simp [Nat.add_comm]⟩,
            Nat.le_refl _, ?_⟩
          · intro row hrow
            rcases List.mem_cons.mp hrow with rfl | hrow'
            · rfl
            · obtain ⟨l, _, rfl⟩ := List.mem_map.mp hrow'
              exact padTruncate_length _ _
          · simp
        · have hlen' : (rest.tail.dropWhile isPipeRow).length ≤ n := by
            have h1 : (rest.tail.dropWhile isPipeRow).length ≤ rest.tail.length :=
              (List.dropWhile_sublist isPipeRow).length_le
            have h2 : rest.tail.length ≤ rest.length := by
              cases rest <;> simp
            simp only [List.length_cons] at hlen
            omega
          obtain ⟨hshape, hnum2, hhd, hle, hget⟩ := ihn _ hlen' (offset + 1) t ht'
          refine ⟨hshape, hnum2, hhd, by omega, ?_⟩
          have h3 : t.plain_text_offset - offset = (t.plain_text_offset - (offset + 1)) + 1 := by
            omega
          rw [h3]
          simpa using hget
      · have hlen' : rest.length ≤ n := by
          simp only [List.length_cons] at hlen
          omega
        simp only [htab, if_false] at ht ⊢
        rcases hh : headingMatch line with _ | lc <;> rw [hh] at ht
        · rcases hb : bulletMatch line with _ | content <;> rw [hb] at ht
          · rcases hnm : numberedMatch line with _ | content <;> rw [hnm] at ht
            · obtain ⟨hshape, hnum2, hhd, hle, hget⟩ := ihn rest hlen'
                (offset + (parse_inline line).1.length + 1) t ht
              refine ⟨hshape, hnum2, hhd, by omega, ?_⟩
              have h3 : t.plain_text_offset - offset
                  = (parse_inline line).1.length + 1
                    + (t.plain_text_offset - (offset + (parse_inline line).1.length + 1)) := by
                omega
              rw [h3]
              exact newline_at_append hget
            · obtain ⟨hshape, hnum2, hhd, hle, hget⟩ := ihn rest hlen'
                (offset + (parse_inline content).1.length + 1) t ht
              refine ⟨hshape, hnum2, hhd, by omega, ?_⟩
              have h3 : t.plain_text_offset - offset
                  = (parse_inline content).1.length + 1
                    + (t.plain_text_offset - (offset + (parse_inline content).1.length + 1)) := by
                omega
              rw [h3]
              exact newline_at_append hget
          · obtain ⟨hshape, hnum2, hhd, hle, hget⟩ := ihn rest hlen'
              (offset + (parse_inline content).1.length + 1) t ht
            refine ⟨hshape, hnum2, hhd, by omega, ?_⟩
            have h3 : t.plain_text_offset - offset
                = (parse_inline content).1.length + 1
                  + (t.plain_text_offset - (offset + (parse_inline content).1.length + 1)) := by
              omega
            rw [h3]
            exact newline_at_append hget
        · obtain ⟨hshape, hnum2, hhd, hle, hget⟩ := ihn rest hlen'
            (offset + (parse_inline lc.2).1.length + 1) t ht
          refine ⟨hshape, hnum2, hhd, by omega, ?_⟩
          have h3 : t.plain_text_offset - offset
              = (parse_inline lc.2).1.length + 1
                + (t.plain_text_offset - (offset + (parse_inline lc.2).1.length + 1)) := by
            omega
          rw [h3]
          exact newline_at_append hget

theorem sortMatchesDesc_ne_nil {ms : List MatchSpan} (hne : ms ≠ []) :
    sortMatchesDesc ms ≠ [] := by
  intro h0
  have := (sortMatchesDesc_perm ms).length_eq
  rw [h0] at this
  exact hne (List.length_eq_zero.mp this.symm)

theorem seekCloseBI_ge (cs : Text) :
    ∀ (fuel j r : Nat), seekCloseBI cs j fuel = some r → j ≤ r := by
  intro fuel
  induction fuel with
  | zero => intro j r h; simp [seekCloseBI] at h
  | succ n ih =>
    intro j r h
    cases hc : charAt cs (j - 1) with
    | none => rw [seekCloseBI, hc] at h; cases h
    | some ch =>
      rw [seekCloseBI] at h
      simp only [hc] at h
      by_cases h1 : ch = '\n'
      · rw [if_pos h1] at h
        cases h
      · rw [if_neg h1] at h
        by_cases h2 : (charAt cs j = some '*' && charAt cs (j + 1) = some '*'
            && charAt cs (j + 2) = some '*') = true
        · rw [if_pos h2] at h
          cases h
          exact Nat.le_refl _
        · rw [if_neg h2] at h
          have := ih (j + 1) r h
          omega

theorem matchBIAt_lt (cs : Text) (i : Nat) {e : Nat} {g : Text}
    (h : matchBIAt cs i = some (e, g)) : i < e := by
  unfold matchBIAt at h
  by_cases h1 : (charAt cs i = some '*' && charAt cs (i + 1) = some '*'
      && charAt cs (i + 2) = some '*') = true
  · rw [if_pos h1] at h
    cases hs : seekCloseBI cs (i + 4) (cs.length + 1) with
    | none => rw [hs] at h; cases h
    | some j =>
      rw [hs] at h
      cases h
      have := seekCloseBI_ge cs _ _ _ hs
      omega
  · rw [if_neg h1] at h
    cases h

theorem finditerGo_sound {α : Type} (f : Nat → Option (Nat × α)) (n : Nat) :
    ∀ (fuel i : Nat), ∀ m ∈ finditerGo f n i fuel, f m.1 = some (m.2.1, m.2.2) := by
  intro fuel
  induction fuel with
  | zero => intro i m h; simp [finditerGo] at h
  | succ k ih =>
    intro i m h
    rw [finditerGo] at h
    split_ifs at h with h1
    · cases h
    · cases hf : f i with
      | none => rw [hf] at h; exact ih (i + 1) m h
      | some eg =>
        rw [hf] at h
        rcases List.mem_cons.mp h with rfl | h'
        · rw [hf]
        · exact ih eg.1 m h'

theorem finditerGo_start_ge {α : Type} (f : Nat → Option (Nat × α)) (n : Nat)
    (hf : ∀ i e g, f i = some (e, g) → i < e) :
    ∀ (fuel i : Nat), ∀ m ∈ finditerGo f n i fuel, i ≤ m.1 := by
  intro fuel
  induction fuel with
  | zero => intro i m h; simp [finditerGo] at h
  | succ k ih =>
    intro i m h
    rw [finditerGo] at h
    split_ifs at h with h1
    · cases h
    · cases hg : f i with
      | none =>
        rw [hg] at h
        have := ih (i + 1) m h
        omega
      | some eg =>
        rw [hg] at h
        rcases List.mem_cons.mp h with rfl | h'
        · exact Nat.le_refl _
        · have h2 := ih eg.1 m h'
          have h3 := hf i eg.1 eg.2 (by rw [hg])
          omega

theorem finditerGo_pairwise {α : Type} (f : Nat → Option (Nat × α)) (n : Nat)
    (hf : ∀ i e g, f i = some (e, g) → i < e) :
    ∀ (fuel i : Nat), (finditerGo f n i fuel).Pairwise (fun a b => a.2.1 ≤ b.1) := by
  intro fuel
  induction fuel with
  | zero => intro i; simp [finditerGo]
  | succ k ih =>
    intro i
    rw [finditerGo]
    split_ifs with h1
    · simp
    · cases hg : f i with
      | none => exact ih (i + 1)
      | some eg =>
        refine List.pairwise_cons.mpr ⟨?_, ih eg.1⟩
        intro m hm
        exact finditerGo_start_ge f n hf k eg.1 m hm

theorem biSegs_lt (cs : Text) : ∀ s ∈ biSegs cs, s.ostart < s.oend := by
  intro s hs
  obtain ⟨m, hm, rfl⟩ := List.mem_map.mp hs
  have := finditerGo_sound (matchBIAt cs) cs.length _ 0 m hm
  exact matchBIAt_lt cs m.1 this

theorem biSegs_pairwise (cs : Text) :
    (biSegs cs).Pairwise (fun a b => a.oend ≤ b.ostart) := by
  unfold biSegs
  rw [List.pairwise_map]
  exact finditerGo_pairwise (matchBIAt cs) cs.length
    (fun i e g h => matchBIAt_lt cs i h) _ 0

theorem apart_of_ordered {a b : Segment} (hab : a.oend ≤ b.ostart)
    (hb : b.ostart < b.oend) : ¬ claimedBy a b.ostart b.oend := by
  unfold claimedBy
  omega

theorem overlapsAny_false {segs : List Segment} {s e : Nat}
    (h : overlapsAny segs s e = false) : ∀ sg ∈ segs, ¬ claimedBy sg s e := by
  intro sg hsg
  unfold claimedBy
  unfold overlapsAny at h
  rw [List.any_eq_false] at h
  have := h sg hsg
  simp at this
  omega

theorem pairwise_addChecked_fold :
    ∀ (cands acc : List Segment),
      acc.Pairwise (fun s c => ¬ claimedBy s c.ostart c.oend) →
      (cands.foldl addChecked acc).Pairwise
        (fun s c => ¬ claimedBy s c.ostart c.oend) := by
  intro cands
  induction cands with
  | nil => intro acc h; simpa using h
  | cons c cs ih =>
    intro acc h
    simp only [List.foldl_cons]
    apply ih
    unfold addChecked
    split_ifs with hov
    · exact h
    · rw [List.pairwise_append]
      refine ⟨h, by simp, ?_⟩
      intro a ha b hb
      rcases List.mem_singleton.mp hb with rfl
      exact overlapsAny_false (Bool.not_eq_true _ ▸ eq_false_of_ne_true hov) a ha

theorem collectSegments_pairwise (cs : Text) :
    (collectSegments cs).Pairwise (fun s c => ¬ claimedBy s c.ostart c.oend) := by
  unfold collectSegments
  apply pairwise_addChecked_fold
  apply pairwise_addChecked_fold
  apply pairwise_addChecked_fold
  apply pairwise_addChecked_fold
  have h1 := biSegs_pairwise cs
  have h2 := biSegs_lt cs
  refine List.Pairwise.imp_of_mem ?_ h1
  intro a b ha hb hab
  exact apart_of_ordered hab (h2 b hb)

theorem mem_insertByStart {y x : Segment} {l : List Segment} :
    y ∈ insertByStart x l ↔ y = x ∨ y ∈ l := by
  induction l with
  | nil => simp [insertByStart]
  | cons z zs ih =>
    unfold insertByStart
    split
    · simp
    · simp only [List.mem_cons, ih]
      tauto

theorem mem_sortByStart {y : Segment} {l : List Segment} :
    y ∈ sortByStart l ↔ y ∈ l := by
  suffices h : ∀ acc, y ∈ l.foldl (fun acc x => insertByStart x acc) acc
      ↔ y ∈ l ∨ y ∈ acc by
    simpa [sortByStart] using h []
  induction l with
  | nil => simp
  | cons z zs ih =>
    intro acc
    simp only [List.foldl_cons, ih, mem_insertByStart, List.mem_cons]
    tauto

theorem buildPlain_fidelity (cs : Text) :
    ∀ (segs : List Segment) (po pe : Nat), ∀ sr ∈ (buildPlain cs segs po pe).2,
      ∃ sg ∈ segs, sr.style ∈ sg.styles
        ∧ po ≤ sr.start
        ∧ sr.stop = sr.start + sg.text.length
        ∧ slice (buildPlain cs segs po pe).1 (sr.start - po) (sr.stop - po)
            = sg.text := by
  intro segs
  induction segs with
  | nil => intro po pe sr h; simp [buildPlain] at h
  | cons sg rest ih =>
    intro po pe sr h
    simp only [buildPlain] at h ⊢
    set L := (if pe < sg.ostart then slice cs pe sg.ostart else []) with hL
    set p2 := (buildPlain cs rest (po + L.length + sg.text.length) sg.oend).1 with hp2
    rcases List.mem_append.mp h with h1 | h1
    · obtain ⟨st, hst, rfl⟩ := List.mem_map.mp h1
      refine ⟨sg, by simp, hst, Nat.le_add_right po L.length, rfl, ?_⟩
      have key : slice (L ++ sg.text ++ p2) ((po + L.length) - po)
          ((po + L.length + sg.text.length) - po) = sg.text := by
        have ha : po + L.length - po = L.length := by omega
        have hb : po + L.length + sg.text.length - po
            = L.length + sg.text.length := by omega
        rw [ha, hb]
        unfold slice
        rw [List.append_assoc, List.drop_left]
        have hc : L.length + sg.text.length - L.length = sg.text.length := by omega
        rw [hc, List.take_left]
      exact key
    · obtain ⟨sg', hsg', hstyle, hpo, hstop, hslice⟩ :=
        ih (po + L.length + sg.text.length) sg.oend sr h1
      refine ⟨sg', by simp [hsg'], hstyle, by omega, hstop, ?_⟩
      have key : ∀ j : Nat,
          List.drop ((L ++ sg.text).length + j) ((L ++ sg.text) ++ p2)
            = List.drop j p2 := by
        intro j
        rw [← List.drop_drop, List.drop_left]
      have ha : sr.start - po
          = (L ++ sg.text).length + (sr.start - (po + L.length + sg.text.length)) := by
        simp only [List.length_append]
        omega
      have hb : sr.stop - po - (sr.start - po)
          = sr.stop - (po + L.length + sg.text.length)
            - (sr.start - (po + L.length + sg.text.length)) := by
        omega
      unfold slice
      rw [hb, ha]
      rw [key]
      exact hslice

/-! ## Claim theorems -/

/-- Claim C2: for every `ChangeInfo` produced by pre-flight,
`has_conflict` is true iff `current_version` is known (non-null) and
either `last_read_version` is absent or `current_version` differs from
`last_read_version`; concretely `(10, 8)` is a conflict, `(10, 10)` is
not, `(10, None)` is a conflict, `(None, 5)` is not. -/
theorem C2_has_conflict_characterization :
    (∀ ci : ChangeInfo, ci.has_conflict = true ↔
      (ci.current_version.isSome ∧
        (ci.last_read_version = none ∨ ci.current_version ≠ ci.last_read_version)))
    ∧ ChangeInfo.has_conflict { current_version := some 10, last_read_version := some 8 } = true
    ∧ ChangeInfo.has_conflict { current_version := some 10, last_read_version := some 10 } = false
    ∧ ChangeInfo.has_conflict { current_version := some 10, last_read_version := none } = true
    ∧ ChangeInfo.has_conflict { current_version := none, last_read_version := some 5 } = false := by
  refine ⟨fun ci => ?_, by decide, by decide, by decide, by decide⟩
  unfold ChangeInfo.has_conflict
  rcases hc : ci.current_version with _ | cur <;>
    rcases hl : ci.last_read_version with _ | lrv <;> simp [bne_iff_ne]

/-- Claim C6 counterexample: under quiet mode, a non-read command (here
`edit`) that carries its own `command_version` DOES change
`last_version` (the post-mutation override at the end of
`update_state_after_command` is not guarded by `quiet`), contradicting
the claim that under quiet mode only an info-class command updates the
version fields. -/
theorem C6_counterexample_quiet_edit :
    (update_state_after_command (some { last_version := some 10 }) none "edit" true
        (some 20) "2025-01-20T00:00:00Z").last_version = some 20 ∧
      ¬ (update_state_after_command (some { last_version := some 10 }) none "edit" true
          (some 20) "2025-01-20T00:00:00Z").last_version = some 10 := by
  constructor
  · decide
  · decide

/-- Claim C6 (amended): under quiet mode the post-command state update
leaves `known_comment_ids`, `known_resolved_ids` and `last_comment_check`
unchanged for every command; `last_read_version` is unchanged except for
an `info` command carrying its own response version, which sets it (and
`last_version`) to that value; `last_version` is additionally overridden
with the command-carried version for any non-`cat` command (the
edit/write post-mutation override applies regardless of quiet mode);
`last_seen` is refreshed to `now` in every case. -/
theorem C6_quiet_mode_frame (state0 : Option DocState) (ci : Option ChangeInfo)
    (command : String) (cv : Option Int) (now : String) :
    (update_state_after_command state0 ci command true cv now).known_comment_ids
        = (state0.getD {}).known_comment_ids
    ∧ (update_state_after_command state0 ci command true cv now).known_resolved_ids
        = (state0.getD {}).known_resolved_ids
    ∧ (update_state_after_command state0 ci command true cv now).last_comment_check
        = (state0.getD {}).last_comment_check
    ∧ (update_state_after_command state0 ci command true cv now).last_seen = now
    ∧ (update_state_after_command state0 ci command true cv now).last_read_version
        = (if command = "info" ∧ cv.isSome then cv else (state0.getD {}).last_read_version)
    ∧ (update_state_after_command state0 ci command true cv now).last_version
        = (if cv.isSome ∧ command ≠ "cat" then cv else (state0.getD {}).last_version) := by
  unfold update_state_after_command
  rcases cv with _ | v <;> by_cases h1 : command = "info" <;>
    by_cases h2 : command = "cat" <;>
      simp_all

/-- Claim C8 counterexample: a state file holding valid JSON that is not
an object (here the JSON array `[]`) does NOT yield "no state" — it hits
`data.items()` and raises `AttributeError`, which is outside the caught
`(json.JSONDecodeError, TypeError, KeyError)` tuple. -/
theorem C8_counterexample_nonobject_json :
    load_state (.parsed (.arr [])) = .error .attributeError := rfl

/-- Claim C8 (amended): loading the per-document state yields "no state"
for a missing file or malformed JSON and a `DocState` for any JSON
object, but valid JSON that is not an object (array, string, number,
boolean, null) raises `AttributeError` from `data.items()`. -/
theorem C8_load_state_defensive :
    (load_state .missing = .ok none ∧ load_state .malformed = .ok none)
    ∧ (∀ kvs, load_state (.parsed (.obj kvs)) = .ok (some (docStateFromObj kvs)))
    ∧ (∀ j : Json, (∀ kvs, j ≠ .obj kvs) → load_state (.parsed j) = .error .attributeError) := by
  refine ⟨⟨rfl, rfl⟩, fun kvs => rfl, fun j h => ?_⟩
  cases j <;> first | rfl | exact absurd rfl (h _)

/-- Witness for C8: the amended theorem applied to the JSON string
`"oops"`. -/
theorem C8_load_state_defensive_witness :
    load_state (.parsed (.str "oops")) = .error .attributeError :=
  C8_load_state_defensive.2.2 (.str "oops") (fun _ h => Json.noConfusion h)

/-- Claim C5: the post-command state update accepts an optional
comment-state patch applied last, after the bulk pre-flight-derived
overwrite (the first conjunct), and idempotently: adding an id already
present is a no-op, `add_comment_id` on a state holding the id once
leaves it exactly once (also after applying the patch twice in
succession), and `remove_comment_id` prunes the id from both
`known_comment_ids` and `known_resolved_ids`.  (The patch handling is
modelled from the spec; see `apply_comment_state_patch`.) -/
theorem C5_comment_state_patch (s : DocState) (cid : String)
    (state0 : Option DocState) (ci : Option ChangeInfo) (command : String)
    (quiet : Bool) (cv : Option Int) (now : String) (p : Option CommentStatePatch) :
    (update_state_after_command_with_patch state0 ci command quiet cv now p
        = apply_comment_state_patch p
            (update_state_after_command state0 ci command quiet cv now))
    ∧ (cid ∈ s.known_comment_ids →
        apply_comment_state_patch (some { add_comment_id := some cid }) s = s)
    ∧ (s.known_comment_ids.count cid = 1 →
        (apply_comment_state_patch (some { add_comment_id := some cid })
          (apply_comment_state_patch (some { add_comment_id := some cid }) s)
          ).known_comment_ids.count cid = 1)
    ∧ (apply_comment_state_patch (some { remove_comment_id := some cid }) s
          ).known_comment_ids = s.known_comment_ids.filter (· ≠ cid)
    ∧ (apply_comment_state_patch (some { remove_comment_id := some cid }) s
          ).known_resolved_ids = s.known_resolved_ids.filter (· ≠ cid) := by
  refine ⟨rfl, fun h => ?_, fun h => ?_, rfl, rfl⟩
  · simp [apply_comment_state_patch, addIdOnce_of_mem h]
  · simp only [apply_comment_state_patch]
    exact count_addIdOnce_self (count_addIdOnce_self h)

/-- Witness for C5: the patch operations at the concrete state of the
spec's example (`known_comment_ids = ["c1"]`). -/
theorem C5_comment_state_patch_witness :
    (apply_comment_state_patch (some { add_comment_id := some "c1" })
        { known_comment_ids := ["c1"] } = { known_comment_ids := ["c1"] })
    ∧ (apply_comment_state_patch (some { add_comment_id := some "c1" })
        (apply_comment_state_patch (some { add_comment_id := some "c1" })
          { known_comment_ids := ["c1"] })).known_comment_ids.count "c1" = 1 :=
  ⟨(C5_comment_state_patch { known_comment_ids := ["c1"] } "c1" none none "" false
      none "" none).2.1 (by decide),
   (C5_comment_state_patch { known_comment_ids := ["c1"] } "c1" none none "" false
      none "" none).2.2.1 (by decide)⟩

/-- Claim C9: starting from the empty state or any state satisfying the
invariant, `known_resolved_ids ⊆ known_comment_ids` holds after the
post-command state update, where the `ChangeInfo` carries merged id sets
as pre-flight produces them (second and third conjuncts: both pre-flight
branches produce `all_resolved_ids ⊆ all_comment_ids`). -/
theorem C9_resolved_subset_invariant :
    (∀ (state0 : Option DocState) (ci : Option ChangeInfo) (command : String)
        (quiet : Bool) (cv : Option Int) (now : String),
      (state0.getD {}).known_resolved_ids ⊆ (state0.getD {}).known_comment_ids →
      (∀ c, ci = some c → c.all_resolved_ids ⊆ c.all_comment_ids) →
      (update_state_after_command state0 ci command quiet cv now).known_resolved_ids
        ⊆ (update_state_after_command state0 ci command quiet cv now).known_comment_ids)
    ∧ (∀ (st : DocState) (vd : VersionData) (comments : List Comment)
        (ts : String) (meta : FileMeta) (info : ChangeInfo),
      pre_flight (some st) vd comments ts meta = .ok info →
      st.known_resolved_ids ⊆ st.known_comment_ids →
      info.all_resolved_ids ⊆ info.all_comment_ids)
    ∧ (∀ (vd : VersionData) (comments : List Comment) (ts : String)
        (meta : FileMeta) (info : ChangeInfo),
      pre_flight none vd comments ts meta = .ok info →
      info.all_resolved_ids ⊆ info.all_comment_ids) := by
  refine ⟨fun state0 ci command quiet cv now hs hci => ?_,
    fun st vd comments ts meta info h hs => ?_,
    fun vd comments ts meta info h => ?_⟩
  · rw [update_known_resolved_ids, update_known_comment_ids]
    cases quiet
    · rcases ci with _ | c
      · simpa using hs
      · have hsub := hci c rfl
        simp only []
        split_ifs with h1
        · exact hsub
        · intro x hx
          have hmem := hsub hx
          have he : c.all_comment_ids = [] := not_not.mp h1
          rw [he] at hmem
          cases hmem
    · simpa using hs
  · simp only [pre_flight] at h
    cases h
    intro x hx
    rw [mem_sortStrings] at hx ⊢
    refine mergeFold_subset comments _ (fun y hy => ?_) hx
    simp only [List.mem_dedup] at hy ⊢
    exact hs hy
  · simp only [pre_flight] at h
    rcases hr : resolvedIdsFirst comments with e | rids <;> rw [hr] at h
    · cases h
    · cases h
      exact resolvedIdsFirst_subset hr

/-- Witness for C9: a concrete update (state invariant and pre-flight
subset hypothesis discharged at `["c1"] ⊆ ["c1"]` and
`["c2"] ⊆ ["c1", "c2"]`). -/
theorem C9_resolved_subset_invariant_witness :
    (update_state_after_command
        (some { known_comment_ids := ["c1"], known_resolved_ids := ["c1"] })
        (some { all_comment_ids := ["c1", "c2"], all_resolved_ids := ["c2"] })
        "cat" false none "t").known_resolved_ids
      ⊆ (update_state_after_command
        (some { known_comment_ids := ["c1"], known_resolved_ids := ["c1"] })
        (some { all_comment_ids := ["c1", "c2"], all_resolved_ids := ["c2"] })
        "cat" false none "t").known_comment_ids :=
  C9_resolved_subset_invariant.1 _ _ "cat" false none "t"
    (by intro x hx; simpa using hx)
    (by intro c hc; injection hc with h2; subst h2; intro x hx; simp at hx; simp [hx])

/-- Claim C10: whenever pre-flight runs with no persisted state (first
interaction), the returned `ChangeInfo` has `has_changes = false`: the
four delta lists stay empty and `doc_edited` stays false regardless of
the comment listing; existing comments are surfaced only through
`open_comment_count` / `resolved_comment_count`. -/
theorem C10_first_interaction_no_changes (vd : VersionData)
    (comments : List Comment) (ts : String) (meta : FileMeta)
    (info : ChangeInfo) (h : pre_flight none vd comments ts meta = .ok info) :
    info.has_changes = false ∧ info.doc_edited = false ∧
    info.new_comments = [] ∧ info.new_replies = [] ∧
    info.newly_resolved = [] ∧ info.newly_reopened = [] ∧
    info.is_first_interaction = true ∧
    info.open_comment_count = (comments.filter (fun (c : Comment) => !c.resolved)).length ∧
    info.resolved_comment_count = (comments.filter (fun (c : Comment) => c.resolved)).length := by
  simp only [pre_flight] at h
  rcases hr : resolvedIdsFirst comments with e | rids <;> rw [hr] at h
  · cases h
  · cases h
    refine ⟨rfl, rfl, rfl, rfl, rfl, rfl, rfl, rfl, rfl⟩

/-- Witness for C10: first interaction over a listing with one resolved
comment. -/
theorem C10_first_interaction_no_changes_witness :
    ChangeInfo.has_changes
      { is_first_interaction := true, resolved_comment_count := 1,
        preflight_timestamp := "t", all_comment_ids := ["c1"],
        all_resolved_ids := ["c1"] } = false ∧
    ({ is_first_interaction := true, resolved_comment_count := 1,
        preflight_timestamp := "t", all_comment_ids := ["c1"],
        all_resolved_ids := ["c1"] } : ChangeInfo).doc_edited = false ∧
    ({ is_first_interaction := true, resolved_comment_count := 1,
        preflight_timestamp := "t", all_comment_ids := ["c1"],
        all_resolved_ids := ["c1"] } : ChangeInfo).new_comments = [] ∧
    ({ is_first_interaction := true, resolved_comment_count := 1,
        preflight_timestamp := "t", all_comment_ids := ["c1"],
        all_resolved_ids := ["c1"] } : ChangeInfo).new_replies = [] ∧
    ({ is_first_interaction := true, resolved_comment_count := 1,
        preflight_timestamp := "t", all_comment_ids := ["c1"],
        all_resolved_ids := ["c1"] } : ChangeInfo).newly_resolved = [] ∧
    ({ is_first_interaction := true, resolved_comment_count := 1,
        preflight_timestamp := "t", all_comment_ids := ["c1"],
        all_resolved_ids := ["c1"] } : ChangeInfo).newly_reopened = [] ∧
    ({ is_first_interaction := true, resolved_comment_count := 1,
        preflight_timestamp := "t", all_comment_ids := ["c1"],
        all_resolved_ids := ["c1"] } : ChangeInfo).is_first_interaction = true ∧
    ({ is_first_interaction := true, resolved_comment_count := 1,
        preflight_timestamp := "t", all_comment_ids := ["c1"],
        all_resolved_ids := ["c1"] } : ChangeInfo).open_comment_count
      = (([{ id := some "c1", resolved := true }] : List Comment).filter
          (fun (c : Comment) => !c.resolved)).length ∧
    ({ is_first_interaction := true, resolved_comment_count := 1,
        preflight_timestamp := "t", all_comment_ids := ["c1"],
        all_resolved_ids := ["c1"] } : ChangeInfo).resolved_comment_count
      = (([{ id := some "c1", resolved := true }] : List Comment).filter
          (fun (c : Comment) => c.resolved)).length :=
  C10_first_interaction_no_changes {} [{ id := some "c1", resolved := true }]
    "t" {} _ rfl

/-- Claim C7 counterexample: on the input `` `**b**` `` the bold match
claims span `(1, 6)` first, and the lower-precedence inline-code match
spans `(0, 7)` — strictly containing the claimed span, hence
overlapping it — yet it is NOT discarded (the skip test only checks
whether the candidate's endpoints fall inside a claimed span); both
segments are kept, and the emitted plain text `**b**b\x60` retains the
bold delimiters instead of stripping them. -/
theorem C7_counterexample_containing_match :
    (collectSegments ("`**b**`".toList)).map (fun s => (s.ostart, s.oend))
        = [(1, 6), (0, 7)]
    ∧ ((1 : Nat) < 7 ∧ (0 : Nat) < 6)
    ∧ (parse_inline ("`**b**`".toList)).1 = "**b**b`".toList := by
  refine ⟨by decide, by decide, by decide⟩

/-- Claim C7 (amended): inline constructs are resolved with precedence
bold+italic, bold, italic, code, link, and a lower-precedence match is
discarded iff its start offset lies inside an already-claimed span
`[s, e)` or its end offset lies inside `(s, e]` — so no kept segment has
an endpoint strictly inside an earlier-kept one, but a lower-precedence
match that strictly contains a claimed span is kept.  Each kept match's
recorded style range covers, in post-stripping plain-text offsets,
exactly that match's inner text (its own delimiters stripped), though a
nested match's delimiters can survive in the plain text through a
containing match. -/
theorem C7_inline_precedence_spans (cs : Text) :
    (collectSegments cs).Pairwise (fun s c => ¬ claimedBy s c.ostart c.oend)
    ∧ ∀ sr ∈ (parse_inline cs).2, ∃ sg ∈ collectSegments cs,
        sr.style ∈ sg.styles
        ∧ sr.stop = sr.start + sg.text.length
        ∧ slice (parse_inline cs).1 sr.start sr.stop = sg.text := by
  refine ⟨collectSegments_pairwise cs, fun sr hsr => ?_⟩
  obtain ⟨sg, hsg, hstyle, _, hstop, hslice⟩ :=
    buildPlain_fidelity cs (sortByStart (collectSegments cs)) 0 0 sr hsr
  refine ⟨sg, mem_sortByStart.mp hsg, hstyle, hstop, ?_⟩
  simpa using hslice

/-- Witness for C7: the input `a **b** c` — the kept bold segment's
style range `(2, 3)` covers exactly the stripped inner text `b`. -/
theorem C7_inline_precedence_spans_witness :
    ∃ sg ∈ collectSegments ("a **b** c".toList),
      (StyleRange.mk 2 3 .bold "text_style").style ∈ sg.styles
      ∧ (StyleRange.mk 2 3 .bold "text_style").stop
          = (StyleRange.mk 2 3 .bold "text_style").start + sg.text.length
      ∧ slice (parse_inline ("a **b** c".toList)).1
            (StyleRange.mk 2 3 .bold "text_style").start
            (StyleRange.mk 2 3 .bold "text_style").stop = sg.text :=
  (C7_inline_precedence_spans ("a **b** c".toList)).2
    (StyleRange.mk 2 3 .bold "text_style") (by decide)

/-- Claim C1: every pipe-table block is captured as a `TableData` in
`ParsedMarkdown.tables` — rectangular (`row.length = num_cols` for every
row, column count fixed by the header row with short rows padded and
long rows truncated, `num_rows = 1 +` data-row count) — with a single
newline placeholder in `plain_text` at `plain_text_offset`; and the
table jobs are consumed by the replace operation as a separate post-pass
after the main batch: the main batch contains no insert-table request,
and the table pass holds one job per table (tables in reverse order) per
match.  (Table parsing is modelled from the spec; the `src` snapshot of
`mdparse.py` lacks it while its tests and `replace_formatted` depend on
it.) -/
theorem C1_table_capture :
    (∀ (md : Text) (t : TableData), t ∈ (parse_markdown md).tables →
      (∀ row ∈ t.rows, row.length = t.num_cols)
      ∧ t.num_rows = t.rows.length
      ∧ (∃ header dataRows, t.rows = header :: dataRows
          ∧ header.length = t.num_cols ∧ t.num_rows = 1 + dataRows.length)
      ∧ (parse_markdown md).plain_text[t.plain_text_offset]? = some '\n')
    ∧ (∀ (ms : List MatchSpan) (md : Text) (rev : String) (tab : Option String)
        (b : BatchUpdate), (replace_formatted ms md rev tab).mainBatch = some b →
        ∀ r ∈ b.requests, isInsertTable r = false)
    ∧ (∀ (ms : List MatchSpan) (md : Text) (rev : String) (tab : Option String),
        ((replace_formatted ms md rev tab).tableJobs.map Prod.snd)
          = (parse_markdown md).tables.reverse.flatMap
              (fun t => (sortMatchesDesc ms).map (fun _ => t))) := by
  refine ⟨fun md t ht => ?_, fun ms md rev tab b h => ?_, fun ms md rev tab => ?_⟩
  · unfold parse_markdown at ht ⊢
    split_ifs at ht ⊢ with hmd
    · cases ht
    · obtain ⟨hshape, hnum2, hhd, hle, hget⟩ :=
        parseLines_tables (splitLinesPy md).length _ (Nat.le_refl _) 0 t ht
      exact ⟨hshape, hnum2, hhd, by simpa using hget⟩
  · simp only [replace_formatted, foldl_append_eq_flatMap] at h
    split_ifs at h with hempty
    · cases h
      intro r hr
      obtain ⟨m, hm, hr'⟩ := List.mem_flatMap.mp hr
      rcases List.mem_cons.mp hr' with rfl | hr''
      · rfl
      · exact to_docs_requests_no_insertTable _ _ _ r hr''
  · simp only [replace_formatted, foldl_append_eq_flatMap]
    split_ifs with hempty
    · have hsnil : sortMatchesDesc ms = [] := by
        cases hsms : sortMatchesDesc ms with
        | nil => rfl
        | cons a l =>
          rw [hsms] at hempty
          simp [List.flatMap_cons] at hempty
      rw [hsnil]
      simp [flatMap_const_nil]
    · simp [List.map_flatMap, List.map_map, Function.comp_def, List.map_const',
        List.enum_length]

/-- Witness for C1: the spec's simple table, and a concrete main batch
free of insert-table requests. -/
theorem C1_table_capture_witness :
    (parse_markdown ("| A | B |\n|---|---|\n| 1 | 2 |".toList)).plain_text[
        (⟨[[['A'], ['B']], [['1'], ['2']]], 2, 2, 0⟩ : TableData).plain_text_offset]?
      = some '\n'
    ∧ isInsertTable (Request.deleteContentRange 1 3 none) = false :=
  ⟨(C1_table_capture.1 ("| A | B |\n|---|---|\n| 1 | 2 |".toList)
      ⟨[[['A'], ['B']], [['1'], ['2']]], 2, 2, 0⟩ (by decide)).2.2.2,
   C1_table_capture.2.1 [⟨1, 3⟩] ("x".toList) "r" none
     ⟨[Request.deleteContentRange 1 3 none,
       Request.insertText 1 ('x' :: '\n' :: []) none,
       Request.updateParagraphStyle 1 3 "NORMAL_TEXT" none], some "r"⟩ (by decide)
     (Request.deleteContentRange 1 3 none) (by decide)⟩

/-- Claim C4: for every markdown input, the sequence of paragraph-style
ranges the parser records is exactly one per consumed paragraph, in
order: `HEADING_N` for a heading line of `N` hashes, `NORMAL_TEXT` for
every other paragraph (plain line, bullet item, numbered item, table
placeholder) — so headings never also emit `NORMAL_TEXT`.  (The
`NORMAL_TEXT` emission and the table placeholder are modelled from the
spec; the `src` snapshot emits no paragraph style for non-heading lines,
contradicting `tests/test_mdparse.py`.) -/
theorem C4_paragraph_style_per_line (md : Text) :
    ((parse_markdown md).styles.filter
        (fun sr => sr.type = "paragraph_style")).map StyleRange.style
      = (if md.isEmpty then [] else expectedParaKinds (splitLinesPy md)).map
          kindStyle := by
  unfold parse_markdown
  split_ifs with h
  · simp
  · exact parseLines_paraStyles (splitLinesPy md).length (splitLinesPy md)
      (Nat.le_refl _) 0

/-- Claim C3: for every non-empty match list and replacement markdown,
`replace_formatted` parses the markdown once (the single shared
`parse_markdown new_markdown` below), processes matches sorted by
`startIndex` descending — emitting per match a delete-range request for
`[startIndex, endIndex)` immediately followed by the insert/style
requests anchored at `startIndex` — submits the accumulated list as one
batch carrying `revision_id` as required precondition, and returns the
number of matches. -/
theorem C3_replace_descending_batch (ms : List MatchSpan) (md : Text)
    (rev : String) (tab : Option String) (hne : ms ≠ []) :
    (replace_formatted ms md rev tab).mainBatch
        = some ⟨(sortMatchesDesc ms).flatMap (fun m =>
            Request.deleteContentRange m.startIndex m.endIndex tab
              :: to_docs_requests (parse_markdown md) m.startIndex tab), some rev⟩
    ∧ ((sortMatchesDesc ms).flatMap (fun m =>
          Request.deleteContentRange m.startIndex m.endIndex tab
            :: to_docs_requests (parse_markdown md) m.startIndex tab)).filterMap
          deleteStart?
        = (sortMatchesDesc ms).map MatchSpan.startIndex
    ∧ (sortMatchesDesc ms).Pairwise (fun a b => b.startIndex ≤ a.startIndex)
    ∧ List.Perm (sortMatchesDesc ms) ms
    ∧ (replace_formatted ms md rev tab).result = ms.length := by
  have hperm := sortMatchesDesc_perm ms
  have hlen : (sortMatchesDesc ms).length = ms.length := hperm.length_eq
  obtain ⟨m0, rest, hs⟩ : ∃ m0 rest, sortMatchesDesc ms = m0 :: rest := by
    cases hsms : sortMatchesDesc ms with
    | nil => exact absurd hsms (sortMatchesDesc_ne_nil hne)
    | cons a l => exact ⟨a, l, rfl⟩
  refine ⟨?_, filterMap_delete_blocks (parse_markdown md) tab (sortMatchesDesc ms),
    sortMatchesDesc_pairwise ms, hperm, ?_⟩
  · simp only [replace_formatted, foldl_append_eq_flatMap]
    rw [hs]
    simp [List.flatMap_cons]
  · simp only [replace_formatted, foldl_append_eq_flatMap]
    rw [hs]
    simp only [List.flatMap_cons]
    rw [if_neg (by simp)]
    simpa [← hs] using hlen

/-- Witness for C3: the end-to-end scenario of the spec — matches at
offsets 0 and 10 replaced via one batch, the offset-10 delete first,
count 2. -/
theorem C3_replace_descending_batch_witness :
    (replace_formatted [⟨0, 5⟩, ⟨10, 15⟩] ("hi".toList) "rev1" none).result = 2
    ∧ List.Perm (sortMatchesDesc [⟨0, 5⟩, ⟨10, 15⟩]) [⟨0, 5⟩, ⟨10, 15⟩]
    ∧ (sortMatchesDesc [⟨0, 5⟩, ⟨10, 15⟩]).Pairwise
        (fun a b => b.startIndex ≤ a.startIndex) :=
  ⟨(C3_replace_descending_batch [⟨0, 5⟩, ⟨10, 15⟩] ("hi".toList) "rev1" none
      (by decide)).2.2.2.2,
   (C3_replace_descending_batch [⟨0, 5⟩, ⟨10, 15⟩] ("hi".toList) "rev1" none
      (by decide)).2.2.2.1,
   (C3_replace_descending_batch [⟨0, 5⟩, ⟨10, 15⟩] ("hi".toList) "rev1" none
      (by decide)).2.2.1⟩

end Gdoc
